import Mathlib

/-!
Verification of the cellular-automata core of the tom.monster repository.

The definitions below are a shallow embedding of the TypeScript sources
`src/lib/ca/rules.ts`, `src/lib/ca/neighbors.ts`, `src/lib/ca/zobrist.ts`
and `src/lib/ca/simulator.ts`, plus the genetic-search loop of
`src/lib/ga/engine.ts`.  JavaScript `Uint8Array` buffers are modelled as
`List Nat`, the JS `Map` as an insertion-ordered association list, and
32-bit integer arithmetic as `Nat` arithmetic taken modulo `2 ^ 32`.
Calls to `Math.random()` are modelled by explicit oracle parameters.
-/

namespace TomMonster

/-! ## Rules (`src/lib/ca/rules.ts`)

A JS `Set<number>` built from a list keeps the first occurrence of each
element in insertion order; it is modelled as a deduplicated `List Nat`.
-/

structure RuleDefinition where
  survival : List Nat
  birth : List Nat
  code : List Char
deriving DecidableEq

/-- `c` is one of the characters `0`–`9` (the JS regex class `\d`),
expressed on code points: `48 ≤ c ≤ 57`. -/
def isAsciiDigit (c : Char) : Bool := 48 ≤ c.toNat && c.toNat ≤ 57

/-- `Number(d)` applied to a single digit character. -/
def digitVal (c : Char) : Nat := c.toNat - 48

/-- The character produced by JS string conversion of a digit `0 ≤ d ≤ 9`
(the parser only ever produces digit values in that range). -/
def digitChar (d : Nat) : Char :=
  match d with
  | 0 => '0' | 1 => '1' | 2 => '2' | 3 => '3' | 4 => '4'
  | 5 => '5' | 6 => '6' | 7 => '7' | 8 => '8' | _ => '9'

/-- ASCII upper-casing of one character, as `String.prototype.toUpperCase`
acts on the characters that can appear in a rule string. -/
def jsUpper (c : Char) : Char :=
  if 'a' ≤ c ∧ c ≤ 'z' then Char.ofNat (c.toNat - 32) else c

/-- The whitespace characters removed by `String.prototype.trim`
(tab, LF, VT, FF, CR, space, NBSP). -/
def isJsSpace (c : Char) : Bool :=
  c.toNat = 9 ∨ c.toNat = 10 ∨ c.toNat = 11 ∨ c.toNat = 12 ∨
    c.toNat = 13 ∨ c.toNat = 32 ∨ c.toNat = 160

/-- `String.prototype.trim` on a character list. -/
def trimChars (l : List Char) : List Char :=
  ((l.dropWhile isJsSpace).reverse.dropWhile isJsSpace).reverse

/-- The anchored regex `^B(\d*)\/S(\d*)$` applied to the normalized input:
a leading `B`, a maximal digit run, the literal `/S`, a maximal digit run,
end of input.  Returns the two digit groups on success (`\d` cannot match
`/`, so greedy matching is exactly the maximal run). -/
def matchRule (l : List Char) : Option (List Char × List Char) :=
  if l.head? = some 'B' then
    let rest := l.tail
    let bd := rest.takeWhile isAsciiDigit
    let mid := rest.dropWhile isAsciiDigit
    if mid.head? = some '/' ∧ mid.tail.head? = some 'S' then
      let rest2 := mid.tail.tail
      if (rest2.dropWhile isAsciiDigit).isEmpty then
        some (bd, rest2.takeWhile isAsciiDigit)
      else none
    else none
  else none

/-- One insertion into a JS `Set` modelled as a deduplicated list. -/
def setInsert (seen : List Nat) (d : Nat) : List Nat :=
  if d ∈ seen then seen else seen ++ [d]

/-- `new Set(list)`: deduplicate, keeping first occurrences in order. -/
def setOfList (ds : List Nat) : List Nat := ds.foldl setInsert []

/-- `[...set].sort()`: JS default sort is lexicographic on the string forms,
which agrees with numeric order on the single-digit values `0`–`9`. -/
def sortAsc (ds : List Nat) : List Nat := ds.insertionSort (· ≤ ·)

/-- `ds.join("")` after rendering each digit. -/
def digitChars (ds : List Nat) : List Char := ds.map digitChar

/-- The canonical code string `` `B${birth.sort().join("")}/S${survival.sort().join("")}` ``. -/
def ruleCode (birth survival : List Nat) : List Char :=
  'B' :: digitChars (sortAsc birth) ++ '/' :: 'S' :: digitChars (sortAsc survival)

/-- `parseRule`: trim and upper-case the input, match the rule regex, and
collapse the digit groups to sets; `none` models the thrown `Invalid rule`. -/
def parseRule (input : List Char) : Option RuleDefinition :=
  let normalized := (trimChars input).map jsUpper
  match matchRule normalized with
  | none => none
  | some bs =>
    some { survival := setOfList (bs.2.map digitVal)
           birth := setOfList (bs.1.map digitVal)
           code := ruleCode (setOfList (bs.1.map digitVal)) (setOfList (bs.2.map digitVal)) }

/-- `stringifyRule` returns the stored canonical code. -/
def stringifyRule (rule : RuleDefinition) : List Char := rule.code

/-- `rule.survival.has(neighbors)`. -/
def isSurvival (rule : RuleDefinition) (neighbors : Nat) : Bool :=
  rule.survival.contains neighbors

/-- `rule.birth.has(neighbors)`. -/
def isBirth (rule : RuleDefinition) (neighbors : Nat) : Bool :=
  rule.birth.contains neighbors

/-! ## Zobrist hashing (`src/lib/ca/zobrist.ts`) -/

/-- One output of the mulberry32 generator, on the 32-bit representation of
the accumulated seed.  JS bitwise operations coerce to 32-bit integers whose
bit patterns are modelled by `Nat` values below `2 ^ 32`; `Math.imul` is
multiplication modulo `2 ^ 32`, `>>>` is logical shift right. -/
def mulberryNext (seedVal : Nat) : Nat :=
  let t0 := seedVal % 2 ^ 32
  let t1 := ((t0 ^^^ (t0 / 2 ^ 15)) * (t0 ||| 1)) % 2 ^ 32
  let t2 := t1 ^^^ ((t1 + ((t1 ^^^ (t1 / 2 ^ 7)) * (t1 ||| 61)) % 2 ^ 32) % 2 ^ 32)
  t2 ^^^ (t2 / 2 ^ 14)

/-- `Math.floor(rng() * 0xffffffff)` where `rng()` returned `t / 2 ^ 32`
exactly.  The double-precision product never rounds across an integer
boundary (for `t < 2 ^ 21` the product is exact; for larger `t` the distance
`t / 2 ^ 32` to the next integer exceeds half an ulp), so the JS result
equals the exact integer floor computed here. -/
def zobristEntry (t : Nat) : Nat := t * 0xffffffff / 2 ^ 32

/-- `createZobristTable(size, seed)`: the closure variable accumulates
`seed + (i + 1) * 0x6d2b79f5` exactly (it stays far below `2 ^ 53`). -/
def createZobristTable (size : Nat) (seed : Nat) : List Nat :=
  (List.range size).map (fun i => zobristEntry (mulberryNext (seed + (i + 1) * 0x6d2b79f5)))

/-- `hashCells`: XOR of the table entries at the truthy (non-zero) cells. -/
def hashCells (cells table : List Nat) : Nat :=
  (List.range cells.length).foldl
    (fun h i => if cells.getD i 0 ≠ 0 then h ^^^ table.getD i 0 else h) 0

/-! ## Hash tracker (`src/lib/ca/zobrist.ts`, class `HashTracker`)

The private JS `Map` is an insertion-ordered association list with unique
keys; `set` overwrites in place or appends. -/

/-- `map.set(k, v)` on an insertion-ordered association list. -/
def mapSet (m : List (Nat × Nat)) (k v : Nat) : List (Nat × Nat) :=
  if m.any (fun p => p.1 = k) then m.map (fun p => if p.1 = k then (k, v) else p)
  else m ++ [(k, v)]

/-- `map.get(k)`. -/
def mapGet (m : List (Nat × Nat)) (k : Nat) : Option Nat :=
  (m.find? (fun p => p.1 = k)).map (fun p => p.2)

structure HashTracker where
  seen : List (Nat × Nat)
  limit : Nat
deriving DecidableEq

/-- `HashTracker.add`: insert, then on overflow delete the entries with the
smallest hash keys until at most `2 * limit` remain. -/
def HashTracker.add (t : HashTracker) (hash generation : Nat) : HashTracker :=
  let seen := mapSet t.seen hash generation
  if seen.length > t.limit * 2 then
    let doomed := (sortAsc (seen.map (fun p => p.1))).take (seen.length - t.limit * 2)
    { t with seen := seen.filter (fun p => ¬ p.1 ∈ doomed) }
  else
    { t with seen := seen }

/-- `HashTracker.has`. -/
def HashTracker.has (t : HashTracker) (hash : Nat) : Bool :=
  (mapGet t.seen hash).isSome

/-- `HashTracker.period`: `generation - storedGeneration`, or `null`. -/
def HashTracker.period (t : HashTracker) (hash generation : Nat) : Option Int :=
  (mapGet t.seen hash).map (fun prev => (generation : Int) - (prev : Int))

/-! ## Neighbor counting (`src/lib/ca/neighbors.ts`)

Coordinates are `Int` so that the off-grid probes `x + dx = -1` appear as in
the source; when `toroidal` the source computes `(n + size) % size`, whose JS
remainder agrees with `Int.emod` because the dividend is non-negative for all
grid coordinates. -/

def squareOffsets : List (Int × Int) :=
  [(-1, -1), (0, -1), (1, -1), (-1, 0), (1, 0), (-1, 1), (0, 1), (1, 1)]

def hexOffsetsEven : List (Int × Int) :=
  [(0, -1), (1, -1), (-1, 0), (1, 0), (0, 1), (1, 1)]

def hexOffsetsOdd : List (Int × Int) :=
  [(-1, -1), (0, -1), (-1, 0), (1, 0), (-1, 1), (0, 1)]

/-- The shared offset loop of `countNeighborsSquare` / `countNeighborsHex`:
apply the boundary policy to each offset and sum the surviving cell bytes. -/
def countOffsets (offsets : List (Int × Int)) (cells : List Nat) (width height : Nat)
    (x y : Int) (toroidal : Bool) : Nat :=
  offsets.foldl
    (fun total o =>
      let nx := if toroidal then (x + o.1 + width) % width else x + o.1
      let ny := if toroidal then (y + o.2 + height) % height else y + o.2
      if nx < 0 ∨ ny < 0 ∨ (width : Int) ≤ nx ∨ (height : Int) ≤ ny then total
      else total + cells.getD (ny * width + nx).toNat 0)
    0

def countNeighborsSquare (cells : List Nat) (width height : Nat) (x y : Int)
    (toroidal : Bool) : Nat :=
  countOffsets squareOffsets cells width height x y toroidal

/-- `y & 1` selects the offset table; on the bit pattern this is `y.emod 2`. -/
def countNeighborsHex (cells : List Nat) (width height : Nat) (x y : Int)
    (toroidal : Bool) : Nat :=
  countOffsets (if y.emod 2 = 0 then hexOffsetsEven else hexOffsetsOdd)
    cells width height x y toroidal

/-! ## Simulator (`src/lib/ca/simulator.ts`) -/

inductive LatticeType where
  | square
  | hex
deriving DecidableEq

inductive Reason where
  | extinction
  | steady
  | periodic
deriving DecidableEq

structure SimulationConfig where
  lattice : LatticeType
  width : Nat
  height : Nat
  rule : RuleDefinition
  toroidal : Bool
  maxPeriod : Nat
deriving DecidableEq

structure SimulationStats where
  generation : Nat
  population : Nat
  hash : Nat
  terminated : Bool
  reason : Option Reason
  period : Option Int
deriving DecidableEq

structure SimulationFrame where
  generation : Nat
  population : Nat
  hash : Nat
  terminated : Bool
  reason : Option Reason
  period : Option Int
  cells : List Nat
deriving DecidableEq

structure SimulationState where
  config : SimulationConfig
  cells : List Nat
  scratch : List Nat
  tracker : HashTracker
  zobrist : List Nat
  generation : Nat
  terminated : Bool
  termination : Option Reason
  period : Option Int
deriving DecidableEq

/-- `new Uint8Array(n)`. -/
def zeros (n : Nat) : List Nat := List.replicate n 0

/-- `createSimulationState(config, initializer?)`: the optional initializer
mutates the zeroed current buffer; it is modelled by the function it applies
to that buffer. -/
def createSimulationState (config : SimulationConfig)
    (initializer : Option (List Nat → List Nat)) : SimulationState :=
  let cellCount := config.width * config.height
  let cells := match initializer with
    | some f => f (zeros cellCount)
    | none => zeros cellCount
  { config := config
    cells := cells
    scratch := zeros cellCount
    tracker := { seen := [], limit := config.maxPeriod }
    zobrist := createZobristTable cellCount 1337
    generation := 0
    terminated := false
    termination := none
    period := none }

/-- `toggleCell`: out-of-range writes on a `Uint8Array` are ignored, as is
`List.set`; an out-of-range read is falsy, matching `getD _ 0`. -/
def toggleCell (state : SimulationState) (x y : Nat) : SimulationState :=
  let index := y * state.config.width + x
  { state with
      cells := state.cells.set index (if state.cells.getD index 0 ≠ 0 then 0 else 1) }

/-- `randomize(state, density)`: the per-cell draws `Math.random() < density`
are modelled by the oracle `liveAt`. -/
def randomize (state : SimulationState) (liveAt : Nat → Bool) : SimulationState :=
  { state with
      cells := (List.range state.cells.length).map (fun i => if liveAt i then 1 else 0)
      scratch := zeros state.scratch.length
      generation := 0
      terminated := false
      tracker := { seen := [], limit := state.config.maxPeriod } }

/-- `applySeed`: zero the buffer, copy `seed.subarray(0, cells.length)`. -/
def applySeed (state : SimulationState) (seed : List Nat) : SimulationState :=
  let n := state.cells.length
  { state with
      cells := seed.take n ++ zeros (n - seed.length)
      generation := 0
      terminated := false
      tracker := { seen := [], limit := state.config.maxPeriod } }

def countNeighbors (lattice : LatticeType) (cells : List Nat) (width height : Nat)
    (x y : Int) (toroidal : Bool) : Nat :=
  match lattice with
  | .square => countNeighborsSquare cells width height x y toroidal
  | .hex => countNeighborsHex cells width height x y toroidal

/-- The per-cell body of the step loop: `alive ? isSurvival : isBirth` at the
row-major index `idx = y * width + x`. -/
def cellNextAlive (c : SimulationConfig) (cells : List Nat) (idx : Nat) : Bool :=
  let x := idx % c.width
  let y := idx / c.width
  let alive := cells.getD idx 0 = 1
  let n := countNeighbors c.lattice cells c.width c.height (x : Int) (y : Int) c.toroidal
  if alive then isSurvival c.rule n else isBirth c.rule n

/-- The target buffer written by the step loop (every index in
`[0, width * height)` is written exactly once). -/
def nextCells (c : SimulationConfig) (cells : List Nat) : List Nat :=
  (List.range (c.width * c.height)).map (fun idx => if cellNextAlive c cells idx then 1 else 0)

/-- The `population` accumulator of the step loop. -/
def stepPopulation (c : SimulationConfig) (cells : List Nat) : Nat :=
  (List.range (c.width * c.height)).foldl
    (fun pop idx => if cellNextAlive c cells idx then pop + 1 else pop) 0

/-- `period && period <= maxPeriod ? "periodic" : "steady"` (JS truthiness:
a `0` or `null` period selects `"steady"`). -/
def classifyReason (p : Option Int) (maxPeriod : Nat) : Reason :=
  match p with
  | some q => if q ≠ 0 ∧ q ≤ (maxPeriod : Int) then .periodic else .steady
  | none => .steady

/-- `nextPopulation`: compute the new buffer, population and hash, classify
termination, record the hash, swap the buffers, and update the sticky
termination fields on the state. -/
def nextPopulation (state : SimulationState) : SimulationStats × SimulationState :=
  let c := state.config
  let target := nextCells c state.cells
  let population := stepPopulation c state.cells
  let hash := hashCells target state.zobrist
  let gen := state.generation + 1
  let stats : SimulationStats :=
    if population = 0 then
      { generation := gen, population := population, hash := hash
        terminated := true, reason := some .extinction, period := none }
    else if state.tracker.has hash then
      { generation := gen, population := population, hash := hash
        terminated := true
        reason := some (classifyReason (state.tracker.period hash gen) c.maxPeriod)
        period := state.tracker.period hash gen }
    else
      { generation := gen, population := population, hash := hash
        terminated := false, reason := none, period := none }
  (stats,
    { state with
        cells := target
        scratch := state.cells
        tracker := state.tracker.add hash gen
        generation := gen
        terminated := if stats.terminated then true else state.terminated
        termination := if stats.terminated then stats.reason else state.termination
        period := if stats.terminated then stats.period else state.period })

/-- `stepSimulation`: the emitted frame carries a copy of the new buffer. -/
def stepSimulation (state : SimulationState) : SimulationFrame × SimulationState :=
  let r := nextPopulation state
  ({ generation := r.1.generation, population := r.1.population, hash := r.1.hash
     terminated := r.1.terminated, reason := r.1.reason, period := r.1.period
     cells := r.2.cells },
   r.2)

/-- The frame sequence and final state after `n` consecutive `step` calls. -/
def stepN : Nat → SimulationState → List SimulationFrame × SimulationState
  | 0, s => ([], s)
  | n + 1, s =>
    let r := stepSimulation s
    let rest := stepN n r.2
    (r.1 :: rest.1, rest.2)

/-- The state after `n` consecutive `step` calls. -/
def stateAfter : Nat → SimulationState → SimulationState
  | 0, s => s
  | n + 1, s => stateAfter n (nextPopulation s).2

/-- States reachable through the public simulator API. -/
inductive Reachable : SimulationState → Prop where
  | create (c : SimulationConfig) (init : Option (List Nat → List Nat)) :
      Reachable (createSimulationState c init)
  | step (s : SimulationState) : Reachable s → Reachable (nextPopulation s).2
  | seed (s : SimulationState) (seed : List Nat) : Reachable s → Reachable (applySeed s seed)
  | rand (s : SimulationState) (liveAt : Nat → Bool) : Reachable s → Reachable (randomize s liveAt)
  | flip (s : SimulationState) (x y : Nat) : Reachable s → Reachable (toggleCell s x y)

/-! ## Translation of a toroidal pattern (for the boundary-behavior claim)

`translateCells w h dx dy cells` is the buffer whose cell at `(x, y)` is the
original cell at `(x - dx, y - dy)`, coordinates reduced modulo the grid. -/

def translateCells (w h : Nat) (dx dy : Int) (cells : List Nat) : List Nat :=
  (List.range (w * h)).map (fun idx =>
    cells.getD (((((idx / w : Nat) : Int) - dy) % (h : Int) * w +
      ((((idx % w : Nat) : Int) - dx) % (w : Int))).toNat) 0)

/-! ## Concrete fixtures used by the end-to-end claims -/

/-- A seed buffer with ones exactly at the listed `(x, y)` coordinates. -/
def seedOf (w h : Nat) (pts : List (Nat × Nat)) : List Nat :=
  (List.range (w * h)).map (fun idx => if (idx % w, idx / w) ∈ pts then 1 else 0)

/-- The parse of `"B3/S23"`. -/
def ruleB3S23 : RuleDefinition :=
  { survival := [2, 3], birth := [3], code := "B3/S23".toList }

def blinkerConfig : SimulationConfig :=
  { lattice := .square, width := 5, height := 5, rule := ruleB3S23
    toroidal := false, maxPeriod := 20 }

def blinkerSeed : List Nat := seedOf 5 5 [(1, 2), (2, 2), (3, 2)]

def blinkerS0 : SimulationState :=
  createSimulationState blinkerConfig (some (fun _ => blinkerSeed))

def blinkerS1 : SimulationState := (nextPopulation blinkerS0).2

def blinkerS2 : SimulationState := (nextPopulation blinkerS1).2

def blinkerS3 : SimulationState := (nextPopulation blinkerS2).2

def blinkerS4 : SimulationState := (nextPopulation blinkerS3).2

/-- The parse of `"B0/S"`: birth on zero neighbors, no survival. -/
def ruleB0S : RuleDefinition := { survival := [], birth := [0], code := "B0/S".toList }

def b0Config : SimulationConfig :=
  { lattice := .square, width := 1, height := 1, rule := ruleB0S
    toroidal := false, maxPeriod := 20 }

def b0S0 : SimulationState := createSimulationState b0Config (some (fun _ => [1]))

/-- The same run with `maxPeriod = 1`. -/
def b0Config1 : SimulationConfig :=
  { lattice := .square, width := 1, height := 1, rule := ruleB0S
    toroidal := false, maxPeriod := 1 }

def b0P0 : SimulationState := createSimulationState b0Config1 (some (fun _ => [1]))

/-- The grid of the repository's own hex unit test: live cells `(1,1)` and
`(2,2)` on a bounded 4 by 4 grid. -/
def hexTestCells : List Nat := seedOf 4 4 [(1, 1), (2, 2)]

/-- The parse of `"B1/S"`. -/
def ruleB1S : RuleDefinition := { survival := [], birth := [1], code := "B1/S".toList }

def hexTorusConfig : SimulationConfig :=
  { lattice := .hex, width := 4, height := 4, rule := ruleB1S
    toroidal := true, maxPeriod := 20 }

def hexTorusPattern : List Nat := seedOf 4 4 [(1, 1)]

/-! ## Claim C1 — blinker scenario -/

/-- C1 counterexample: on the blinker configuration the frame returned at
generation 2 has `terminated = false` (the seed's hash was never recorded by
the tracker, so the recurrence is only detected at generation 3), refuting
the claim that this frame has `terminated = true` with reason `Periodic`. -/
theorem C1_counterexample :
    (stepSimulation blinkerS1).1.generation = 2 ∧
      (stepSimulation blinkerS1).1.cells = blinkerSeed ∧
      (stepSimulation blinkerS1).1.terminated = false := by
  decide

/-- C1 (amended): for the blinker simulation, after one step the live cells
are exactly `(2,1)`, `(2,2)`, `(2,3)`; after two steps the buffer equals the
seed again; the generation-2 frame has `terminated = false`, and the frame
returned at generation 3 has `terminated = true` with reason `Periodic` and
`period = 2`. -/
theorem C1_theorem :
    (stepSimulation blinkerS0).1.cells = seedOf 5 5 [(2, 1), (2, 2), (2, 3)] ∧
      (stepSimulation blinkerS1).1.cells = blinkerSeed ∧
      (stepSimulation blinkerS1).1.terminated = false ∧
      (stepSimulation blinkerS2).1.generation = 3 ∧
      (stepSimulation blinkerS2).1.terminated = true ∧
      (stepSimulation blinkerS2).1.reason = some Reason.periodic ∧
      (stepSimulation blinkerS2).1.period = some 2 := by
  decide

/-! ## Claim C3 — termination monotonicity -/

/-- C3 counterexample: on a 1 by 1 bounded grid with rule `B0/S`, the first
step is an extinction (`terminated = true`) but the second step revives the
cell (birth on zero neighbors) and returns a frame with
`terminated = false`, refuting frame-level termination monotonicity. -/
theorem C3_counterexample :
    (stepSimulation b0S0).1.terminated = true ∧
      (stepSimulation b0S0).1.reason = some Reason.extinction ∧
      (stepSimulation (stepSimulation b0S0).2).1.generation = 2 ∧
      (stepSimulation (stepSimulation b0S0).2).1.terminated = false := by
  decide

/-- Stepping never clears the state's sticky `terminated` flag. -/
theorem nextPopulation_terminated_mono (s : SimulationState)
    (h : s.terminated = true) : (nextPopulation s).2.terminated = true := by
  simp only [nextPopulation]
  split <;> simp [h]

/-- C3 (amended): once a step has returned a frame with `terminated = true`,
the state's `terminated` flag remains true after any number of further steps
(the flag is only cleared by `applySeed`/`randomize`); individual later
frames can nevertheless report `terminated = false` again, as the
counterexample shows. -/
theorem C3_theorem (s : SimulationState) (n : Nat) (h : s.terminated = true) :
    (stateAfter n s).terminated = true := by
  induction n generalizing s with
  | zero => exact h
  | succ n ih => exact ih _ (nextPopulation_terminated_mono s h)

/-- C3 witness: the claim's amended statement at the revived `B0/S` run. -/
theorem C3_witness : (stateAfter 3 (nextPopulation b0S0).2).terminated = true :=
  C3_theorem (nextPopulation b0S0).2 3 (by decide)

/-! ## Claim C4 — determinism -/

/-- C4: stepping is deterministic.  Two states created from the same config
whose initializers write the same bytes into the zeroed current buffer
produce identical frame sequences (and identical final states) under any
number of steps: the step function draws no randomness and the Zobrist seed
is fixed. -/
theorem C4_theorem (c : SimulationConfig) (f g : List Nat → List Nat) (n : Nat)
    (h : f (zeros (c.width * c.height)) = g (zeros (c.width * c.height))) :
    stepN n (createSimulationState c (some f)) =
      stepN n (createSimulationState c (some g)) := by
  have hcreate : createSimulationState c (some f) = createSimulationState c (some g) := by
    simp only [createSimulationState]
    rw [h]
  rw [hcreate]

/-- C4 witness: two syntactically different initializers that write the same
single live byte produce identical two-step frame sequences. -/
theorem C4_witness :
    stepN 2 (createSimulationState b0Config (some (fun _ => [1]))) =
      stepN 2 (createSimulationState b0Config (some (fun l => l.map (fun x => x + 1)))) :=
  C4_theorem b0Config _ _ 2 (by decide)

/-! ## Claim C5 — population equals the count of live cells -/

/-- Counting with a fold equals counting ones in the rendered 0/1 list. -/
theorem foldl_count_ones (p : Nat → Bool) :
    ∀ (l : List Nat) (acc : Nat),
      l.foldl (fun a i => if p i then a + 1 else a) acc =
        acc + (l.map (fun i => if p i then (1 : Nat) else 0)).count 1 := by
  intro l
  induction l with
  | nil => intro acc; simp
  | cons hd tl ih =>
    intro acc
    by_cases hp : p hd
    · simp [hp, ih, List.count_cons]
      omega
    · simp [hp, ih, List.count_cons]

/-- C5: the frame returned by a step has `population` equal to the number of
ones in the post-step cell buffer, and that population is at most
`width * height`. -/
theorem C5_theorem (s : SimulationState) :
    (stepSimulation s).1.population = (stepSimulation s).1.cells.count 1 ∧
      (stepSimulation s).1.population ≤ s.config.width * s.config.height := by
  have hcount : stepPopulation s.config s.cells = (nextCells s.config s.cells).count 1 := by
    simpa [stepPopulation, nextCells] using
      foldl_count_ones (cellNextAlive s.config s.cells)
        (List.range (s.config.width * s.config.height)) 0
  have hframe : (stepSimulation s).1.population = stepPopulation s.config s.cells := by
    simp only [stepSimulation, nextPopulation]
    split
    · rfl
    · split <;> rfl
  have hcells : (stepSimulation s).1.cells = nextCells s.config s.cells := rfl
  constructor
  · rw [hframe, hcells, hcount]
  · rw [hframe, hcount]
    calc (nextCells s.config s.cells).count 1 ≤ (nextCells s.config s.cells).length :=
          List.count_le_length 1 _
      _ = s.config.width * s.config.height := by
          simp [nextCells]

/-! ## Claim C7 — the hex unit-test scenario -/

/-- C7: evaluating the code at the repository's own unit-test input.  With
live cells `(1,1)` and `(2,2)` on a bounded 4 by 4 hex grid,
`countNeighborsHex` at `(2,2)` returns `0`, not the `1` asserted by both the
spec and `tests/unit/hex.test.ts`: the even-row offset table contains no
offset reaching `(1,1)` from `(2,2)` (the even and odd tables are swapped
relative to the intended odd-row-shift layout). -/
theorem C7_code_eval :
    countNeighborsHex hexTestCells 4 4 2 2 false = 0 ∧
      countNeighborsHex hexTestCells 4 4 2 2 false ≠ 1 := by
  decide

/-! ## Claim C10 — applySeed and randomize keep the stale reason/period -/

/-- C10: `applySeed` and `randomize` reset `generation` to 0, clear
`terminated`, and replace the tracker with a fresh one, but they do not
touch the state's stored `termination` reason or `period`: after either
call on a terminated state the old values are still carried while
`terminated` is false. -/
theorem C10_theorem (s : SimulationState) (seed : List Nat) (liveAt : Nat → Bool)
    (_h : s.terminated = true) :
    ((applySeed s seed).generation = 0 ∧ (applySeed s seed).terminated = false ∧
        (applySeed s seed).tracker = { seen := [], limit := s.config.maxPeriod } ∧
        (applySeed s seed).termination = s.termination ∧
        (applySeed s seed).period = s.period) ∧
      ((randomize s liveAt).generation = 0 ∧ (randomize s liveAt).terminated = false ∧
        (randomize s liveAt).tracker = { seen := [], limit := s.config.maxPeriod } ∧
        (randomize s liveAt).termination = s.termination ∧
        (randomize s liveAt).period = s.period) := by
  refine ⟨⟨rfl, rfl, rfl, rfl, rfl⟩, ⟨rfl, rfl, rfl, rfl, rfl⟩⟩

/-- C10 witness: the extinct `B0/S` state still carries reason `extinction`
and `terminated = false` after reseeding. -/
theorem C10_witness :
    (applySeed (nextPopulation b0S0).2 [1]).terminated = false ∧
      (applySeed (nextPopulation b0S0).2 [1]).termination =
        (nextPopulation b0S0).2.termination := by
  have h := C10_theorem (nextPopulation b0S0).2 [1] (fun _ => false) (by decide)
  exact ⟨h.1.2.1, h.1.2.2.2.1⟩

/-! ## Claim C2 — periodic classification -/

/-- Every value in `mapSet m k v` comes from `m` or is the new value. -/
theorem mem_mapSet (m : List (Nat × Nat)) (k v : Nat) (p : Nat × Nat)
    (hp : p ∈ mapSet m k v) : p ∈ m ∨ p.2 = v := by
  unfold mapSet at hp
  split at hp
  · obtain ⟨q, hq, hqp⟩ := List.mem_map.1 hp
    by_cases hk : q.1 = k
    · simp [hk] at hqp
      right
      rw [← hqp]
    · simp [hk] at hqp
      left
      rwa [← hqp]
  · rcases List.mem_append.1 hp with h | h
    · exact Or.inl h
    · simp at h
      right
      rw [h]

/-- Every value in the tracker after `add` comes from before or is the newly
recorded generation. -/
theorem mem_trackerAdd (t : HashTracker) (hash gen : Nat) (p : Nat × Nat)
    (hp : p ∈ (t.add hash gen).seen) : p ∈ t.seen ∨ p.2 = gen := by
  simp only [HashTracker.add] at hp
  split at hp
  · exact mem_mapSet _ _ _ _ (List.mem_filter.1 hp).1
  · exact mem_mapSet _ _ _ _ hp

/-- All generations stored in the tracker are at most the current one. -/
def TrackerBounded (s : SimulationState) : Prop :=
  ∀ p ∈ s.tracker.seen, p.2 ≤ s.generation

theorem reachable_trackerBounded (s : SimulationState) (h : Reachable s) :
    TrackerBounded s := by
  induction h with
  | create c init => intro p hp; simp [createSimulationState] at hp
  | step s _ ih =>
    intro p hp
    have htr : (nextPopulation s).2.tracker =
        s.tracker.add (hashCells (nextCells s.config s.cells) s.zobrist) (s.generation + 1) := rfl
    have hgen : (nextPopulation s).2.generation = s.generation + 1 := rfl
    rw [htr] at hp
    rw [hgen]
    rcases mem_trackerAdd _ _ _ _ hp with h | h
    · exact Nat.le_succ_of_le (ih p h)
    · omega
  | seed s seedv _ _ => intro p hp; simp [applySeed] at hp
  | rand s liveAt _ _ => intro p hp; simp [randomize] at hp
  | flip s x y _ ih => intro p hp; exact ih p hp

/-- `mapGet` finds a pair that is in the list with the queried key. -/
theorem mapGet_mem (m : List (Nat × Nat)) (k g : Nat) (h : mapGet m k = some g) :
    (k, g) ∈ m := by
  unfold mapGet at h
  cases hf : m.find? (fun p => p.1 = k) with
  | none => rw [hf] at h; simp at h
  | some q =>
    rw [hf] at h
    simp at h
    have hq := List.mem_of_find?_eq_some hf
    have hk := List.find?_some hf
    simp at hk
    have : q = (k, g) := by
      cases q
      simp_all
    rwa [this] at hq

/-- C2 counterexample.  First run (blinker, maxPeriod 20): the frame at
generation 5 has reason `Periodic` with `period = 2`, but its hash was first
recorded at generation 1 (the frames at generations 2 and 4 carry a
different hash), and `5 - 1 = 4 ≠ 2`: the tracker stores the most recent
occurrence, not the first.  Second run (1 by 1, `B0/S`, maxPeriod 1): the
hash `0` recorded at generation 1 recurs at generation 3 with derived
period `2 > maxPeriod`, yet the reason is `Extinction`, not `Steady`. -/
theorem C2_counterexample :
    ((stepSimulation blinkerS4).1.reason = some Reason.periodic ∧
        (stepSimulation blinkerS4).1.period = some 2 ∧
        (stepSimulation blinkerS4).1.generation = 5 ∧
        (stepSimulation blinkerS4).1.hash = (stepSimulation blinkerS0).1.hash ∧
        (stepSimulation blinkerS2).1.hash = (stepSimulation blinkerS0).1.hash ∧
        (stepSimulation blinkerS0).1.generation = 1 ∧
        (stepSimulation blinkerS1).1.hash ≠ (stepSimulation blinkerS0).1.hash ∧
        (stepSimulation blinkerS3).1.hash ≠ (stepSimulation blinkerS0).1.hash ∧
        (5 : Int) - 1 ≠ 2) ∧
      ((stepSimulation (stateAfter 2 b0P0)).1.generation = 3 ∧
        (stepSimulation (stateAfter 2 b0P0)).1.reason = some Reason.extinction ∧
        mapGet (stateAfter 2 b0P0).tracker.seen
          (stepSimulation (stateAfter 2 b0P0)).1.hash = some 1 ∧
        (b0P0.config.maxPeriod : Int) < (3 : Int) - 1) := by
  decide

/-- C2 (amended): for every reachable state, when a step returns a frame
whose reason is `Periodic` the frame carries a period `p` with
`1 ≤ p ≤ maxPeriod` equal to the new generation minus the generation at
which the same hash was most recently recorded by the tracker; and when the
recorded hash recurs with derived period greater than `maxPeriod` on a step
with non-zero population, the reason is `Steady` (an extinction step takes
precedence over recurrence). -/
theorem C2_theorem (s : SimulationState) (hr : Reachable s) :
    ((nextPopulation s).1.reason = some Reason.periodic →
        ∃ p g, (nextPopulation s).1.period = some p ∧
          mapGet s.tracker.seen (nextPopulation s).1.hash = some g ∧
          p = ((nextPopulation s).1.generation : Int) - (g : Int) ∧
          1 ≤ p ∧ p ≤ (s.config.maxPeriod : Int)) ∧
      (∀ g : Nat, mapGet s.tracker.seen (nextPopulation s).1.hash = some g →
        (s.config.maxPeriod : Int) < ((nextPopulation s).1.generation : Int) - (g : Int) →
        (nextPopulation s).1.population ≠ 0 →
        (nextPopulation s).1.reason = some Reason.steady) := by
  have hb := reachable_trackerBounded s hr
  simp only [nextPopulation]
  split
  case isTrue hpop =>
    constructor
    · intro h
      simp at h
    · intro g _ _ hne
      exact absurd hpop hne
  case isFalse hpop =>
    split
    case isTrue hhas =>
      obtain ⟨g0, hg0⟩ : ∃ g0,
          mapGet s.tracker.seen (hashCells (nextCells s.config s.cells) s.zobrist) = some g0 := by
        unfold HashTracker.has at hhas
        cases hmg : mapGet s.tracker.seen (hashCells (nextCells s.config s.cells) s.zobrist) with
        | none => rw [hmg] at hhas; simp at hhas
        | some g0 => exact ⟨g0, rfl⟩
      have hg0le : g0 ≤ s.generation := hb _ (mapGet_mem _ _ _ hg0)
      have hper : (s.tracker.period (hashCells (nextCells s.config s.cells) s.zobrist)
          (s.generation + 1)) = some ((s.generation + 1 : Int) - (g0 : Int)) := by
        unfold HashTracker.period
        rw [hg0]
        rfl
      constructor
      · intro h
        simp only [hper, classifyReason] at h ⊢
        split at h
        case isTrue hcond =>
          refine ⟨(s.generation + 1 : Int) - (g0 : Int), g0, rfl, hg0, rfl, ?_, hcond.2⟩
          omega
        case isFalse hcond =>
          simp at h
      · intro g hg hgt _
        have hgg0 : g = g0 := by
          have hg2 : mapGet s.tracker.seen
              (hashCells (nextCells s.config s.cells) s.zobrist) = some g := by
            simpa using hg
          rw [hg0] at hg2
          exact (Option.some_injective _ hg2).symm
        subst hgg0
        have hgt2 : (s.config.maxPeriod : Int) < (s.generation + 1 : Int) - (g : Int) := by
          simpa using hgt
        simp only [hper, classifyReason]
        have hcond : ¬ ((s.generation + 1 : Int) - (g : Int) ≠ 0 ∧
            (s.generation + 1 : Int) - (g : Int) ≤ (s.config.maxPeriod : Int)) := by
          intro hc
          omega
        rw [if_neg hcond]
    case isFalse hhas =>
      constructor
      · intro h
        simp at h
      · intro g hg _ _
        exfalso
        apply hhas
        unfold HashTracker.has
        rw [hg]
        rfl

/-- C2 witness: the amended statement instantiated at the blinker state
after two steps, whose third step reports `Periodic`. -/
theorem C2_witness :
    ∃ p g, (nextPopulation blinkerS2).1.period = some p ∧
      mapGet blinkerS2.tracker.seen (nextPopulation blinkerS2).1.hash = some g ∧
      p = ((nextPopulation blinkerS2).1.generation : Int) - (g : Int) ∧
      1 ≤ p ∧ p ≤ (blinkerS2.config.maxPeriod : Int) :=
  (C2_theorem blinkerS2
    (Reachable.step blinkerS1 (Reachable.step blinkerS0
      (Reachable.create blinkerConfig (some (fun _ => blinkerSeed)))))).1 (by decide)

/-! ## Claim C8 — toroidal translation equivariance -/

theorem getD_range_map (n : Nat) (f : Nat → Nat) (i : Nat) (h : i < n) (d : Nat) :
    ((List.range n).map f).getD i d = f i := by
  rw [List.getD_eq_getElem?_getD, List.getElem?_map, List.getElem?_range h]
  rfl

theorem int_add_right_emod (a w : Int) : (a + w) % w = a % w := by
  have h := Int.add_mul_emod_self_left a w 1
  rwa [mul_one] at h

theorem emod_sub_left (y dy m : Int) : (y % m - dy) % m = (y - dy) % m := by
  conv_lhs => rw [Int.sub_emod]
  conv_rhs => rw [Int.sub_emod]
  rw [Int.emod_emod_of_dvd y dvd_rfl]

theorem emod_toNat_lt (x : Int) (w : Nat) (hw : 0 < w) : (x % (w : Int)).toNat < w := by
  have h1 : x % (w : Int) < (w : Int) := Int.emod_lt_of_pos x (by exact_mod_cast hw)
  have h2 : (0 : Int) ≤ x % (w : Int) := Int.emod_nonneg x (by exact_mod_cast hw.ne')
  omega

theorem toNat_mul_add (u v : Int) (w : Nat) (hu : 0 ≤ u) (hv : 0 ≤ v) :
    (u * (w : Int) + v).toNat = u.toNat * w + v.toNat := by
  rw [← Int.toNat_of_nonneg hu, ← Int.toNat_of_nonneg hv]
  norm_cast

/-- Splitting the row-major index built from two reduced coordinates. -/
theorem modIndex_split (w h : Nat) (hw : 0 < w) (hh : 0 < h) (x y : Int) :
    ((y % (h : Int)) * w + x % (w : Int)).toNat =
      (y % (h : Int)).toNat * w + (x % (w : Int)).toNat :=
  toNat_mul_add _ _ w (Int.emod_nonneg y (by exact_mod_cast hh.ne'))
    (Int.emod_nonneg x (by exact_mod_cast hw.ne'))

theorem rowMajor_lt (A B w h : Nat) (hA : A < w) (hB : B < h) : B * w + A < w * h := by
  calc B * w + A < B * w + w := by omega
    _ = (B + 1) * w := by ring
    _ ≤ h * w := Nat.mul_le_mul_right w (by omega)
    _ = w * h := Nat.mul_comm h w

theorem rowMajor_mod (A B w : Nat) (hA : A < w) : (B * w + A) % w = A := by
  rw [Nat.mul_comm B w, Nat.mul_add_mod, Nat.mod_eq_of_lt hA]

theorem rowMajor_div (A B w : Nat) (hA : A < w) (hw : 0 < w) : (B * w + A) / w = B := by
  rw [Nat.mul_comm B w, Nat.mul_add_div hw, Nat.div_eq_of_lt hA, Nat.add_zero]

/-- The cell probed by the toroidal boundary policy. -/
def modGet (cells : List Nat) (w h : Nat) (x y : Int) : Nat :=
  cells.getD ((y % (h : Int) * w + x % (w : Int)).toNat) 0

theorem modGet_congr (cells : List Nat) (w h : Nat) (x y x2 y2 : Int)
    (hx : x % (w : Int) = x2 % (w : Int)) (hy : y % (h : Int) = y2 % (h : Int)) :
    modGet cells w h x y = modGet cells w h x2 y2 := by
  unfold modGet
  rw [hx, hy]

/-- A generic foldl-accumulates-a-sum lemma for the neighbor loop. -/
theorem foldl_add_sum (g : (Int × Int) → Nat) (step : Nat → (Int × Int) → Nat)
    (hstep : ∀ t o, step t o = t + g o) :
    ∀ (l : List (Int × Int)) (acc : Nat), l.foldl step acc = acc + (l.map g).sum := by
  intro l
  induction l with
  | nil => intro acc; simp
  | cons hd tl ih =>
    intro acc
    simp [hstep, ih (acc + g hd)]
    omega

/-- With `toroidal = true` on a non-degenerate grid, the bounds guard never
fires and each offset contributes the reduced-coordinate probe. -/
theorem countOffsets_toroidal (offs : List (Int × Int)) (cells : List Nat) (w h : Nat)
    (hw : 0 < w) (hh : 0 < h) (x y : Int) :
    countOffsets offs cells w h x y true =
      (offs.map (fun o => modGet cells w h (x + o.1) (y + o.2))).sum := by
  unfold countOffsets
  refine Eq.trans (foldl_add_sum (fun o => modGet cells w h (x + o.1) (y + o.2)) _ ?_ offs 0)
    (Nat.zero_add _)
  intro t o
  have hwz : ((w : Int)) ≠ 0 := by exact_mod_cast hw.ne'
  have hhz : ((h : Int)) ≠ 0 := by exact_mod_cast hh.ne'
  show (if (x + o.1 + (w : Int)) % (w : Int) < 0 ∨ (y + o.2 + (h : Int)) % (h : Int) < 0 ∨
      (w : Int) ≤ (x + o.1 + (w : Int)) % (w : Int) ∨
        (h : Int) ≤ (y + o.2 + (h : Int)) % (h : Int) then t
    else t + cells.getD (((y + o.2 + (h : Int)) % (h : Int)) * w +
      ((x + o.1 + (w : Int)) % (w : Int))).toNat 0) =
    t + modGet cells w h (x + o.1) (y + o.2)
  rw [int_add_right_emod (x + o.1) (w : Int), int_add_right_emod (y + o.2) (h : Int)]
  have hxlo : (0 : Int) ≤ (x + o.1) % (w : Int) := Int.emod_nonneg _ hwz
  have hxhi : (x + o.1) % (w : Int) < (w : Int) := Int.emod_lt_of_pos _ (by exact_mod_cast hw)
  have hylo : (0 : Int) ≤ (y + o.2) % (h : Int) := Int.emod_nonneg _ hhz
  have hyhi : (y + o.2) % (h : Int) < (h : Int) := Int.emod_lt_of_pos _ (by exact_mod_cast hh)
  rw [if_neg]
  · rfl
  · push_neg
    exact ⟨hxlo, hylo, hxhi, hyhi⟩

/-- Reading one entry of a translated buffer. -/
theorem translateCells_getD (w h : Nat) (dx dy : Int) (cells : List Nat) (i : Nat)
    (hi : i < w * h) :
    (translateCells w h dx dy cells).getD i 0 =
      cells.getD (((((i / w : Nat) : Int) - dy) % (h : Int) * w +
        ((((i % w : Nat) : Int) - dx) % (w : Int))).toNat) 0 := by
  unfold translateCells
  exact getD_range_map _ _ _ hi _

/-- Probing a translated buffer through the toroidal policy equals probing
the original at the shifted-back coordinates. -/
theorem modGet_translate (w h : Nat) (hw : 0 < w) (hh : 0 < h) (dx dy : Int)
    (cells : List Nat) (x y : Int) :
    modGet (translateCells w h dx dy cells) w h x y =
      modGet cells w h (x - dx) (y - dy) := by
  have hwz : ((w : Int)) ≠ 0 := by exact_mod_cast hw.ne'
  have hhz : ((h : Int)) ≠ 0 := by exact_mod_cast hh.ne'
  have hA : (x % (w : Int)).toNat < w := emod_toNat_lt x w hw
  have hB : (y % (h : Int)).toNat < h := emod_toNat_lt y h hh
  have hsplit := modIndex_split w h hw hh x y
  have hKlt : ((y % (h : Int)) * w + x % (w : Int)).toNat < w * h := by
    rw [hsplit]
    exact rowMajor_lt _ _ w h hA hB
  unfold modGet
  rw [translateCells_getD w h dx dy cells _ hKlt]
  congr 1
  have hmod : ((y % (h : Int)) * w + x % (w : Int)).toNat % w = (x % (w : Int)).toNat := by
    rw [hsplit]
    exact rowMajor_mod _ _ w hA
  have hdiv : ((y % (h : Int)) * w + x % (w : Int)).toNat / w = (y % (h : Int)).toNat := by
    rw [hsplit]
    exact rowMajor_div _ _ w hA hw
  rw [hmod, hdiv]
  rw [Int.toNat_of_nonneg (Int.emod_nonneg x hwz), Int.toNat_of_nonneg (Int.emod_nonneg y hhz)]
  rw [emod_sub_left x dx _, emod_sub_left y dy _]

/-- C8 counterexample: on the hex lattice the claim fails.  With
`toroidal = true`, rule `B1/S`, a 4 by 4 grid, and the single live cell
`(1,1)`, translating by `(0,1)` flips the row parity, so stepping the
translated pattern does not give the translated successor. -/
theorem C8_counterexample :
    nextCells hexTorusConfig (translateCells 4 4 0 1 hexTorusPattern) ≠
      translateCells 4 4 0 1 (nextCells hexTorusConfig hexTorusPattern) := by
  decide

/-- Reading one entry of a stepped buffer. -/
theorem nextCells_getD (c : SimulationConfig) (cells : List Nat) (i : Nat)
    (hi : i < c.width * c.height) :
    (nextCells c cells).getD i 0 = if cellNextAlive c cells i then 1 else 0 := by
  unfold nextCells
  exact getD_range_map _ _ _ hi _

/-- C8 (amended): with `toroidal = true` the claim holds on the square
lattice (the hex lattice's parity-dependent offsets break it, as the
counterexample shows): for every rule, grid, pattern and translation vector
`(dx, dy)`, the successor of the translated pattern equals the translation
of the successor. -/
theorem C8_theorem (c : SimulationConfig) (cells : List Nat) (dx dy : Int)
    (hlat : c.lattice = .square) (htor : c.toroidal = true)
    (hw : 0 < c.width) (hh : 0 < c.height) :
    nextCells c (translateCells c.width c.height dx dy cells) =
      translateCells c.width c.height dx dy (nextCells c cells) := by
  have hwz : ((c.width : Int)) ≠ 0 := by exact_mod_cast hw.ne'
  have hhz : ((c.height : Int)) ≠ 0 := by exact_mod_cast hh.ne'
  show (List.range (c.width * c.height)).map
      (fun idx =>
        if cellNextAlive c (translateCells c.width c.height dx dy cells) idx then 1 else 0) =
    (List.range (c.width * c.height)).map
      (fun idx => (nextCells c cells).getD
        (((((idx / c.width : Nat) : Int) - dy) % (c.height : Int) * c.width +
          ((((idx % c.width : Nat) : Int) - dx) % (c.width : Int))).toNat) 0)
  refine List.map_congr_left ?_
  intro i hi
  rw [List.mem_range] at hi
  -- the shifted-back index
  have hA : ((((i % c.width : Nat) : Int) - dx) % (c.width : Int)).toNat < c.width :=
    emod_toNat_lt _ _ hw
  have hB : ((((i / c.width : Nat) : Int) - dy) % (c.height : Int)).toNat < c.height :=
    emod_toNat_lt _ _ hh
  have hsplit := modIndex_split c.width c.height hw hh
    (((i % c.width : Nat) : Int) - dx) (((i / c.width : Nat) : Int) - dy)
  have hJlt : (((((i / c.width : Nat) : Int) - dy) % (c.height : Int) * c.width +
      ((((i % c.width : Nat) : Int) - dx) % (c.width : Int))).toNat) < c.width * c.height := by
    rw [hsplit]
    exact rowMajor_lt _ _ _ _ hA hB
  rw [nextCells_getD c cells _ hJlt]
  -- both sides are the same per-cell rule applied at matching cells
  have hcell : cellNextAlive c (translateCells c.width c.height dx dy cells) i =
      cellNextAlive c cells
        (((((i / c.width : Nat) : Int) - dy) % (c.height : Int) * c.width +
          ((((i % c.width : Nat) : Int) - dx) % (c.width : Int))).toNat) := by
    simp only [cellNextAlive]
    have hJmod : (((((i / c.width : Nat) : Int) - dy) % (c.height : Int) * c.width +
        ((((i % c.width : Nat) : Int) - dx) % (c.width : Int))).toNat) % c.width =
        ((((i % c.width : Nat) : Int) - dx) % (c.width : Int)).toNat := by
      rw [hsplit]
      exact rowMajor_mod _ _ _ hA
    have hJdiv : (((((i / c.width : Nat) : Int) - dy) % (c.height : Int) * c.width +
        ((((i % c.width : Nat) : Int) - dx) % (c.width : Int))).toNat) / c.width =
        ((((i / c.width : Nat) : Int) - dy) % (c.height : Int)).toNat := by
      rw [hsplit]
      exact rowMajor_div _ _ _ hA hw
    have halive : (translateCells c.width c.height dx dy cells).getD i 0 = cells.getD
        (((((i / c.width : Nat) : Int) - dy) % (c.height : Int) * c.width +
          ((((i % c.width : Nat) : Int) - dx) % (c.width : Int))).toNat) 0 :=
      translateCells_getD _ _ _ _ _ _ hi
    have hcastA : ((((((i % c.width : Nat) : Int) - dx) % (c.width : Int)).toNat : Int)) =
        (((i % c.width : Nat) : Int) - dx) % (c.width : Int) :=
      Int.toNat_of_nonneg (Int.emod_nonneg _ hwz)
    have hcastB : ((((((i / c.width : Nat) : Int) - dy) % (c.height : Int)).toNat : Int)) =
        (((i / c.width : Nat) : Int) - dy) % (c.height : Int) :=
      Int.toNat_of_nonneg (Int.emod_nonneg _ hhz)
    have hcount : countNeighbors c.lattice (translateCells c.width c.height dx dy cells)
        c.width c.height ((i % c.width : Nat) : Int) ((i / c.width : Nat) : Int) c.toroidal =
        countNeighbors c.lattice cells c.width c.height
          (((((((i % c.width : Nat) : Int) - dx) % (c.width : Int)).toNat : Nat) : Int))
          (((((((i / c.width : Nat) : Int) - dy) % (c.height : Int)).toNat : Nat) : Int))
          c.toroidal := by
      rw [hlat, htor]
      show countNeighborsSquare _ _ _ _ _ true = countNeighborsSquare _ _ _ _ _ true
      unfold countNeighborsSquare
      rw [countOffsets_toroidal _ _ _ _ hw hh, countOffsets_toroidal _ _ _ _ hw hh]
      congr 1
      refine List.map_congr_left ?_
      intro o _
      rw [modGet_translate c.width c.height hw hh dx dy cells]
      refine modGet_congr _ _ _ _ _ _ _ ?_ ?_
      · rw [hcastA]
        have h1 : ((i % c.width : Nat) : Int) + o.1 - dx =
            (((i % c.width : Nat) : Int) - dx) + o.1 := by ring
        rw [h1, Int.emod_add_emod]
      · rw [hcastB]
        have h2 : ((i / c.width : Nat) : Int) + o.2 - dy =
            (((i / c.width : Nat) : Int) - dy) + o.2 := by ring
        rw [h2, Int.emod_add_emod]
    rw [hJmod, hJdiv, halive, hcount]
  rw [hcell]

/-- C8 witness: the amended equivariance at a concrete square toroidal grid,
with a pattern touching the edge and a non-trivial translation. -/
theorem C8_witness :
    nextCells
        { lattice := .square, width := 4, height := 4, rule := ruleB3S23
          toroidal := true, maxPeriod := 20 }
        (translateCells 4 4 2 3 (seedOf 4 4 [(0, 0), (1, 0), (0, 1)])) =
      translateCells 4 4 2 3
        (nextCells
          { lattice := .square, width := 4, height := 4, rule := ruleB3S23
            toroidal := true, maxPeriod := 20 }
          (seedOf 4 4 [(0, 0), (1, 0), (0, 1)])) :=
  C8_theorem
    { lattice := .square, width := 4, height := 4, rule := ruleB3S23
      toroidal := true, maxPeriod := 20 }
    (seedOf 4 4 [(0, 0), (1, 0), (0, 1)]) 2 3 rfl rfl (by decide) (by decide)

/-! ## Claim C6 — rule parsing round trip -/

theorem mem_setInsert (acc : List Nat) (d x : Nat) :
    x ∈ setInsert acc d ↔ x ∈ acc ∨ x = d := by
  unfold setInsert
  split
  case isTrue h =>
    constructor
    · exact Or.inl
    · rintro (hx | hx)
      · exact hx
      · rwa [hx]
  case isFalse h => simp

theorem mem_foldl_setInsert : ∀ (l acc : List Nat) (x : Nat),
    x ∈ l.foldl setInsert acc ↔ x ∈ acc ∨ x ∈ l := by
  intro l
  induction l with
  | nil => intro acc x; simp
  | cons hd tl ih =>
    intro acc x
    rw [List.foldl_cons, ih, mem_setInsert]
    simp only [List.mem_cons]
    tauto

theorem mem_setOfList (l : List Nat) (x : Nat) : x ∈ setOfList l ↔ x ∈ l := by
  unfold setOfList
  rw [mem_foldl_setInsert]
  simp

theorem nodup_setInsert (acc : List Nat) (d : Nat) (h : acc.Nodup) :
    (setInsert acc d).Nodup := by
  unfold setInsert
  split
  case isTrue _ => exact h
  case isFalse hd =>
    rw [List.nodup_append]
    refine ⟨h, List.nodup_singleton d, ?_⟩
    intro a ha hb
    simp at hb
    subst hb
    exact hd ha

theorem nodup_foldl_setInsert : ∀ (l acc : List Nat), acc.Nodup →
    (l.foldl setInsert acc).Nodup := by
  intro l
  induction l with
  | nil => intro acc h; exact h
  | cons hd tl ih => intro acc h; exact ih _ (nodup_setInsert acc hd h)

theorem nodup_setOfList (l : List Nat) : (setOfList l).Nodup :=
  nodup_foldl_setInsert l [] List.nodup_nil

theorem foldl_setInsert_of_disjoint : ∀ (l acc : List Nat), l.Nodup →
    (∀ x ∈ l, x ∉ acc) → l.foldl setInsert acc = acc ++ l := by
  intro l
  induction l with
  | nil => intro acc _ _; simp
  | cons hd tl ih =>
    intro acc hn hdis
    have hhd : hd ∉ acc := hdis hd (List.mem_cons_self hd tl)
    have hset : setInsert acc hd = acc ++ [hd] := by
      unfold setInsert
      rw [if_neg hhd]
    have hrest : tl.foldl setInsert (acc ++ [hd]) = (acc ++ [hd]) ++ tl := by
      apply ih
      · exact (List.nodup_cons.1 hn).2
      · intro x hx hmem
        rw [List.mem_append] at hmem
        rcases hmem with hxa | hxs
        · exact hdis x (List.mem_cons_of_mem hd hx) hxa
        · simp at hxs
          subst hxs
          exact (List.nodup_cons.1 hn).1 hx
    rw [List.foldl_cons, hset, hrest, List.append_assoc, List.singleton_append]

theorem setOfList_eq_self (l : List Nat) (h : l.Nodup) : setOfList l = l := by
  unfold setOfList
  rw [foldl_setInsert_of_disjoint l [] h (by intro x _ hx; simp at hx)]
  simp

theorem sortAsc_nodup (l : List Nat) (h : l.Nodup) : (sortAsc l).Nodup :=
  (List.perm_insertionSort (· ≤ ·) l).symm.nodup h

theorem sortAsc_mem (l : List Nat) (x : Nat) : x ∈ sortAsc l ↔ x ∈ l :=
  (List.perm_insertionSort (· ≤ ·) l).mem_iff

theorem sortAsc_idem (l : List Nat) : sortAsc (sortAsc l) = sortAsc l :=
  List.Sorted.insertionSort_eq (List.sorted_insertionSort (· ≤ ·) l)

theorem digitChar_isDigit (d : Nat) (h : d ≤ 9) : isAsciiDigit (digitChar d) = true := by
  interval_cases d <;> decide

theorem digitVal_digitChar (d : Nat) (h : d ≤ 9) : digitVal (digitChar d) = d := by
  interval_cases d <;> decide

theorem jsUpper_digitChar (d : Nat) (h : d ≤ 9) : jsUpper (digitChar d) = digitChar d := by
  interval_cases d <;> decide

theorem isJsSpace_digitChar (d : Nat) (h : d ≤ 9) : isJsSpace (digitChar d) = false := by
  interval_cases d <;> decide

theorem digitVal_le_of_isDigit (c : Char) (h : isAsciiDigit c = true) : digitVal c ≤ 9 := by
  unfold isAsciiDigit at h
  simp at h
  unfold digitVal
  omega

theorem takeWhile_append_all (p : Char → Bool) :
    ∀ (l m : List Char), (∀ c ∈ l, p c = true) →
      (l ++ m).takeWhile p = l ++ m.takeWhile p := by
  intro l
  induction l with
  | nil => intro m _; simp
  | cons hd tl ih =>
    intro m hall
    have hhd : p hd = true := hall hd (List.mem_cons_self hd tl)
    simp only [List.cons_append, List.takeWhile_cons, hhd, eq_self_iff_true, if_true]
    rw [ih m (fun c hc => hall c (List.mem_cons_of_mem hd hc))]

theorem dropWhile_append_all (p : Char → Bool) :
    ∀ (l m : List Char), (∀ c ∈ l, p c = true) →
      (l ++ m).dropWhile p = m.dropWhile p := by
  intro l
  induction l with
  | nil => intro m _; simp
  | cons hd tl ih =>
    intro m hall
    have hhd : p hd = true := hall hd (List.mem_cons_self hd tl)
    simp only [List.cons_append, List.dropWhile_cons, hhd, eq_self_iff_true, if_true]
    exact ih m (fun c hc => hall c (List.mem_cons_of_mem hd hc))

theorem takeWhile_all (p : Char → Bool) (l : List Char) (h : ∀ c ∈ l, p c = true) :
    l.takeWhile p = l := by
  have h2 := takeWhile_append_all p l [] h
  simpa using h2

theorem dropWhile_all (p : Char → Bool) (l : List Char) (h : ∀ c ∈ l, p c = true) :
    l.dropWhile p = [] := by
  have h2 := dropWhile_append_all p l [] h
  simpa using h2

theorem dropWhile_eq_self_of_none (p : Char → Bool) (l : List Char)
    (h : ∀ c ∈ l, p c = false) : l.dropWhile p = l := by
  cases l with
  | nil => rfl
  | cons hd tl =>
    have hhd : p hd = false := h hd (List.mem_cons_self hd tl)
    simp [List.dropWhile_cons, hhd]

theorem trimChars_eq_self (l : List Char) (h : ∀ c ∈ l, isJsSpace c = false) :
    trimChars l = l := by
  unfold trimChars
  rw [dropWhile_eq_self_of_none _ _ h,
    dropWhile_eq_self_of_none _ _ (fun c hc => h c (List.mem_reverse.1 hc)),
    List.reverse_reverse]

theorem mem_ruleCode (b s : List Nat) (c : Char) (hc : c ∈ ruleCode b s) :
    c = 'B' ∨ c = '/' ∨ c = 'S' ∨ ∃ d, (d ∈ b ∨ d ∈ s) ∧ c = digitChar d := by
  unfold ruleCode at hc
  rcases List.mem_cons.1 hc with h | hc2
  · exact Or.inl h
  rcases List.mem_append.1 hc2 with hc3 | hc4
  · obtain ⟨d, hd, rfl⟩ := List.mem_map.1 hc3
    exact Or.inr (Or.inr (Or.inr ⟨d, Or.inl ((sortAsc_mem b d).1 hd), rfl⟩))
  rcases List.mem_cons.1 hc4 with h | hc5
  · exact Or.inr (Or.inl h)
  rcases List.mem_cons.1 hc5 with h | hc6
  · exact Or.inr (Or.inr (Or.inl h))
  obtain ⟨d, hd, rfl⟩ := List.mem_map.1 hc6
  exact Or.inr (Or.inr (Or.inr ⟨d, Or.inr ((sortAsc_mem s d).1 hd), rfl⟩))

theorem ruleCode_normalized (b s : List Nat) (hb : ∀ d ∈ b, d ≤ 9) (hs : ∀ d ∈ s, d ≤ 9) :
    (trimChars (ruleCode b s)).map jsUpper = ruleCode b s := by
  have hd9 : ∀ c ∈ ruleCode b s, ∀ d : Nat, (d ∈ b ∨ d ∈ s) → c = digitChar d → d ≤ 9 := by
    intro c _ d hd _
    rcases hd with hd | hd
    · exact hb d hd
    · exact hs d hd
  have hsp : ∀ c ∈ ruleCode b s, isJsSpace c = false := by
    intro c hc
    rcases mem_ruleCode b s c hc with h | h | h | ⟨d, hd, hcd⟩
    · subst h; decide
    · subst h; decide
    · subst h; decide
    · subst hcd
      exact isJsSpace_digitChar d (hd9 _ hc d hd rfl)
  rw [trimChars_eq_self (ruleCode b s) hsp]
  have hup : ∀ c ∈ ruleCode b s, jsUpper c = c := by
    intro c hc
    rcases mem_ruleCode b s c hc with h | h | h | ⟨d, hd, hcd⟩
    · subst h; decide
    · subst h; decide
    · subst h; decide
    · subst hcd
      exact jsUpper_digitChar d (hd9 _ hc d hd rfl)
  calc (ruleCode b s).map jsUpper = (ruleCode b s).map id := List.map_congr_left hup
    _ = ruleCode b s := List.map_id _

theorem matchRule_ruleCode (b s : List Nat) (hb : ∀ d ∈ b, d ≤ 9) (hs : ∀ d ∈ s, d ≤ 9) :
    matchRule (ruleCode b s) = some (digitChars (sortAsc b), digitChars (sortAsc s)) := by
  have hdigb : ∀ c ∈ digitChars (sortAsc b), isAsciiDigit c = true := by
    intro c hc
    obtain ⟨d, hd, rfl⟩ := List.mem_map.1 hc
    exact digitChar_isDigit d (hb d ((sortAsc_mem b d).1 hd))
  have hdigs : ∀ c ∈ digitChars (sortAsc s), isAsciiDigit c = true := by
    intro c hc
    obtain ⟨d, hd, rfl⟩ := List.mem_map.1 hc
    exact digitChar_isDigit d (hs d ((sortAsc_mem s d).1 hd))
  have hslash : isAsciiDigit '/' = false := by decide
  have h1 : (digitChars (sortAsc b) ++ '/' :: 'S' :: digitChars (sortAsc s)).takeWhile
      isAsciiDigit = digitChars (sortAsc b) := by
    rw [takeWhile_append_all _ _ _ hdigb]
    simp [List.takeWhile_cons, hslash]
  have h2 : (digitChars (sortAsc b) ++ '/' :: 'S' :: digitChars (sortAsc s)).dropWhile
      isAsciiDigit = '/' :: 'S' :: digitChars (sortAsc s) := by
    rw [dropWhile_append_all _ _ _ hdigb]
    simp [List.dropWhile_cons, hslash]
  have h3 : (digitChars (sortAsc s)).takeWhile isAsciiDigit = digitChars (sortAsc s) :=
    takeWhile_all _ _ hdigs
  have h4 : (digitChars (sortAsc s)).dropWhile isAsciiDigit = [] :=
    dropWhile_all _ _ hdigs
  show matchRule ('B' :: (digitChars (sortAsc b) ++ '/' :: 'S' :: digitChars (sortAsc s))) = _
  simp only [matchRule, List.head?_cons, List.tail_cons, h1, h2, h3, h4]
  simp

theorem matchRule_digits (l : List Char) (bs : List Char × List Char)
    (h : matchRule l = some bs) :
    (∀ c ∈ bs.1, isAsciiDigit c = true) ∧ (∀ c ∈ bs.2, isAsciiDigit c = true) := by
  simp only [matchRule] at h
  split at h
  case isFalse => simp at h
  case isTrue =>
    split at h
    case isFalse => simp at h
    case isTrue =>
      split at h
      case isFalse => simp at h
      case isTrue =>
        obtain rfl := Option.some_injective _ h
        constructor <;> intro c hc <;> exact List.mem_takeWhile_imp hc

theorem parseRule_shape (inp : List Char) (r : RuleDefinition)
    (h : parseRule inp = some r) :
    r.code = ruleCode r.birth r.survival ∧ r.birth.Nodup ∧ r.survival.Nodup ∧
      (∀ d ∈ r.birth, d ≤ 9) ∧ (∀ d ∈ r.survival, d ≤ 9) := by
  simp only [parseRule] at h
  cases hm : matchRule ((trimChars inp).map jsUpper) with
  | none => rw [hm] at h; simp at h
  | some bs =>
    rw [hm] at h
    simp only [Option.some.injEq] at h
    obtain ⟨hdig1, hdig2⟩ := matchRule_digits _ _ hm
    subst h
    refine ⟨rfl, nodup_setOfList _, nodup_setOfList _, ?_, ?_⟩
    · intro d hd
      rw [mem_setOfList] at hd
      obtain ⟨c, hc, rfl⟩ := List.mem_map.1 hd
      exact digitVal_le_of_isDigit c (hdig1 c hc)
    · intro d hd
      rw [mem_setOfList] at hd
      obtain ⟨c, hc, rfl⟩ := List.mem_map.1 hd
      exact digitVal_le_of_isDigit c (hdig2 c hc)

theorem digitChars_val (l : List Nat) (h : ∀ d ∈ l, d ≤ 9) :
    (digitChars l).map digitVal = l := by
  unfold digitChars
  rw [List.map_map]
  calc l.map (digitVal ∘ digitChar) = l.map id := by
        refine List.map_congr_left ?_
        intro d hd
        simp only [Function.comp_apply, id_eq]
        exact digitVal_digitChar d (h d hd)
    _ = l := List.map_id _

theorem parseRule_ruleCode (b s : List Nat) (hb9 : ∀ d ∈ b, d ≤ 9) (hs9 : ∀ d ∈ s, d ≤ 9)
    (hbn : b.Nodup) (hsn : s.Nodup) :
    parseRule (ruleCode b s) =
      some { survival := sortAsc s, birth := sortAsc b, code := ruleCode b s } := by
  have hb9s : ∀ d ∈ sortAsc b, d ≤ 9 := fun d hd => hb9 d ((sortAsc_mem b d).1 hd)
  have hs9s : ∀ d ∈ sortAsc s, d ≤ 9 := fun d hd => hs9 d ((sortAsc_mem s d).1 hd)
  have hmapb : (digitChars (sortAsc b)).map digitVal = sortAsc b := digitChars_val _ hb9s
  have hmaps : (digitChars (sortAsc s)).map digitVal = sortAsc s := digitChars_val _ hs9s
  have hsetb : setOfList (sortAsc b) = sortAsc b :=
    setOfList_eq_self _ (sortAsc_nodup b hbn)
  have hsets : setOfList (sortAsc s) = sortAsc s :=
    setOfList_eq_self _ (sortAsc_nodup s hsn)
  have hcode : ruleCode (sortAsc b) (sortAsc s) = ruleCode b s := by
    unfold ruleCode
    rw [sortAsc_idem b, sortAsc_idem s]
  simp only [parseRule]
  rw [ruleCode_normalized b s hb9 hs9, matchRule_ruleCode b s hb9 hs9]
  simp only [hmapb, hmaps, hsetb, hsets, hcode]

theorem sorted_nodup_chain (l : List Nat) (hs : l.Sorted (· ≤ ·)) (hn : l.Nodup) :
    l.Chain' (· < ·) := by
  have h1 : List.Pairwise (fun a b : Nat => a ≤ b ∧ a ≠ b) l := List.Pairwise.and hs hn
  exact (h1.imp (fun hab => lt_of_le_of_ne hab.1 hab.2)).chain'

/-- C6: parsing then stringifying is idempotent and case/whitespace
insensitive.  (1) Re-parsing the canonical code of a parse result yields the
same birth and survival sets (now sorted) and the same canonical code;
(2) the canonical code has the shape `B<digits>/S<digits>` with the digit
values strictly ascending (no repeats); (3) two inputs whose trimmed,
upper-cased forms agree parse identically; (4) `"b36/S23 "` parses to birth
`{3,6}`, survival `{2,3}`, canonical `"B36/S23"`. -/
theorem C6_theorem :
    (∀ inp r, parseRule inp = some r →
      parseRule (stringifyRule r) =
          some { survival := sortAsc r.survival, birth := sortAsc r.birth, code := r.code } ∧
        (∀ d, d ∈ sortAsc r.birth ↔ d ∈ r.birth) ∧
        (∀ d, d ∈ sortAsc r.survival ↔ d ∈ r.survival)) ∧
    (∀ inp r, parseRule inp = some r →
      r.code = 'B' :: digitChars (sortAsc r.birth) ++ '/' :: 'S' ::
          digitChars (sortAsc r.survival) ∧
        (sortAsc r.birth).Chain' (· < ·) ∧ (sortAsc r.survival).Chain' (· < ·)) ∧
    (∀ t u : List Char, (trimChars t).map jsUpper = (trimChars u).map jsUpper →
      parseRule t = parseRule u) ∧
    parseRule "b36/S23 ".toList =
      some { survival := [2, 3], birth := [3, 6], code := "B36/S23".toList } := by
  refine ⟨?_, ?_, ?_, ?_⟩
  · intro inp r h
    obtain ⟨hcode, hbn, hsn, hb9, hs9⟩ := parseRule_shape inp r h
    refine ⟨?_, fun d => sortAsc_mem _ d, fun d => sortAsc_mem _ d⟩
    show parseRule r.code = _
    rw [hcode, parseRule_ruleCode r.birth r.survival hb9 hs9 hbn hsn]
  · intro inp r h
    obtain ⟨hcode, hbn, hsn, _, _⟩ := parseRule_shape inp r h
    exact ⟨hcode, sorted_nodup_chain _ (List.sorted_insertionSort _ _) (sortAsc_nodup _ hbn),
      sorted_nodup_chain _ (List.sorted_insertionSort _ _) (sortAsc_nodup _ hsn)⟩
  · intro t u h
    simp only [parseRule]
    rw [h]
  · decide

/-- C6 witness: two inputs differing only in case and surrounding
whitespace parse identically. -/
theorem C6_witness : parseRule "b36/S23 ".toList = parseRule " B36/s23".toList :=
  (C6_theorem.2.2.1) "b36/S23 ".toList " B36/s23".toList (by decide)

/-! ## Genetic search (`src/lib/ga/engine.ts`)

Fitness values are JS numbers, modelled as rationals.  All `Math.random()`
draws are modelled by explicit oracle parameters; the opaque `nanoid()`
genome ids do not participate in fitness, equality or selection and are
elided.  `evaluateGenome` is deterministic but irrelevant to the loop
properties verified here, so the loop is parameterized by the fitness
function it induces. -/

structure Genome where
  cells : List (Nat × Nat)
deriving DecidableEq

structure GAConfig where
  populationSize : Nat
  mutationRate : ℚ
  eliteCount : Nat
  maxGenerations : Nat
  gridSize : Nat
  lattice : LatticeType
  rule : List Char
  toroidal : Bool
  borderPenalty : ℚ
deriving DecidableEq

structure GARunProgress where
  generation : Nat
  bestFitness : ℚ
  population : Nat
  bestGenome : Genome
deriving DecidableEq

/-- The random draws consumed by one `mutateGenome` call: the per-index
point-mutation hits and sign draws (`Math.random() < 0.5` picks `-1`), the
insertion draw with its fresh coordinate, and the deletion draw with its
index (reduced into range). -/
structure MutDraws where
  pointHit : Nat → Bool
  signX : Nat → Bool
  signY : Nat → Bool
  insertHit : Bool
  insertCell : Nat × Nat
  deleteHit : Bool
  deleteIdx : Nat

/-- `Math.max(0, Math.min(window - 1, v))`. -/
def clampWindow (window : Nat) (v : Int) : Nat := (max 0 (min ((window : Int) - 1) v)).toNat

/-- `mutateGenome`: point mutations, then a possible insertion, then a
possible deletion (only when more than one cell remains). -/
def mutateGenome (g : Genome) (window : Nat) (d : MutDraws) : Genome :=
  let pointMutated := ((List.range g.cells.length).zip g.cells).map (fun ic =>
    if d.pointHit ic.1 then
      (clampWindow window ((ic.2.1 : Int) + (if d.signX ic.1 then -1 else 1)),
        clampWindow window ((ic.2.2 : Int) + (if d.signY ic.1 then -1 else 1)))
    else ic.2)
  let inserted := if d.insertHit then pointMutated ++ [d.insertCell] else pointMutated
  let deleted :=
    if d.deleteHit ∧ inserted.length > 1 then
      inserted.eraseIdx (d.deleteIdx % inserted.length)
    else inserted
  { cells := deleted }

/-- `crossover`: child of length `max |A| |B|`, even slots from `A`, odd
slots from `B`, indices wrapping; an out-of-bounds gene (empty parent) is
skipped by the `if (gene)` guard. -/
def crossover (a b : Genome) : Genome :=
  { cells := (List.range (max a.cells.length b.cells.length)).filterMap (fun i =>
      if i % 2 = 0 then a.cells[i % a.cells.length]? else b.cells[i % b.cells.length]?) }

/-- The random draws consumed by one GA generation when building the next
population: parent picks (reduced into the elite range), the fallback
genomes used when the elite list is empty, and the mutation draws. -/
structure GAOracle where
  initPop : List Genome
  parentA : Nat → Nat → Nat
  parentB : Nat → Nat → Nat
  fallbackA : Nat → Nat → Genome
  fallbackB : Nat → Nat → Genome
  mutDraws : Nat → Nat → MutDraws

/-- `scored.sort((a, b) => b.fitness - a.fitness)`: a stable sort descending
by fitness (insertion sort and JS timsort agree on stable outputs). -/
def sortByFitnessDesc (l : List (Genome × ℚ)) : List (Genome × ℚ) :=
  l.insertionSort (fun a b => b.2 ≤ a.2)

/-- `scored[0].fitness` after sorting: the top score of a generation. -/
def genTopScore (fitness : Genome → ℚ) (pop : List Genome) : ℚ :=
  ((sortByFitnessDesc (pop.map (fun g => (g, fitness g)))).headD ({ cells := [] }, 0)).2

/-- `elites[floor(random * len)] ?? randomGenome(seedWindow)`. -/
def pickParent (elites : List Genome) (idx : Nat) (fallback : Genome) : Genome :=
  if elites.isEmpty then fallback else elites.getD (idx % elites.length) { cells := [] }

/-- The body of one GA generation: score, sort, update the best-ever pair,
emit a progress event, keep the elites, and refill the population with
mutated crossovers of elite parents. -/
def gaStep (cfg : GAConfig) (window : Nat) (fitness : Genome → ℚ) (o : GAOracle)
    (gen : Nat) (pop : List Genome) (bestG : Genome) (bestF : ℚ) :
    GARunProgress × List Genome × Genome × ℚ :=
  let scored := pop.map (fun g => (g, fitness g))
  let sorted := sortByFitnessDesc scored
  let top := sorted.headD ({ cells := [] }, 0)
  let best := if top.2 > bestF then (top.1, top.2) else (bestG, bestF)
  let ev : GARunProgress :=
    { generation := gen, bestFitness := best.2, population := cfg.populationSize
      bestGenome := best.1 }
  let elites := (sorted.take cfg.eliteCount).map (fun x => x.1)
  let next := elites ++ (List.range (cfg.populationSize - elites.length)).map (fun k =>
    mutateGenome
      (crossover (pickParent elites (o.parentA gen k) (o.fallbackA gen k))
        (pickParent elites (o.parentB gen k) (o.fallbackB gen k)))
      window (o.mutDraws gen k))
  (ev, next, best.1, best.2)

/-- The GA loop from a given generation: runs until the iteration budget is
exhausted or `shouldCancel` fires, collecting the progress events. -/
def runGAFrom (cfg : GAConfig) (window : Nat) (shouldCancel : Nat → Bool)
    (fitness : Genome → ℚ) (o : GAOracle) :
    Nat → Nat → List Genome → Genome → ℚ → List GARunProgress × Genome × ℚ
  | 0, _gen, _pop, bestG, bestF => ([], bestG, bestF)
  | fuel + 1, gen, pop, bestG, bestF =>
    if shouldCancel gen then ([], bestG, bestF)
    else
      let r := gaStep cfg window fitness o gen pop bestG bestF
      let rest := runGAFrom cfg window shouldCancel fitness o fuel (gen + 1) r.2.1 r.2.2.1 r.2.2.2
      (r.1 :: rest.1, rest.2)

/-- `runGeneticSearch`: start from the oracle's initial population with
`bestGenome = population[0]` and `bestFitness = 0`. -/
def runGeneticSearch (cfg : GAConfig) (iterations window : Nat)
    (shouldCancel : Nat → Bool) (fitness : Genome → ℚ) (o : GAOracle) :
    List GARunProgress × Genome × ℚ :=
  runGAFrom cfg window shouldCancel fitness o iterations 0 o.initPop
    (o.initPop.headD { cells := [] }) 0

/-! ## Claim C9 — bestFitness monotonicity -/

/-- One GA generation: the emitted event carries the new best-ever fitness,
which never decreases. -/
theorem gaStep_best (cfg : GAConfig) (window : Nat) (fitness : Genome → ℚ) (o : GAOracle)
    (gen : Nat) (pop : List Genome) (bestG : Genome) (bestF : ℚ) :
    (gaStep cfg window fitness o gen pop bestG bestF).1.bestFitness =
        (gaStep cfg window fitness o gen pop bestG bestF).2.2.2 ∧
      bestF ≤ (gaStep cfg window fitness o gen pop bestG bestF).2.2.2 := by
  simp only [gaStep]
  split
  case isTrue h => exact ⟨trivial, le_of_lt h⟩
  case isFalse h => exact ⟨trivial, le_rfl⟩

/-- The events of a GA run, prefixed by any event carrying the incoming
best-ever value, form a monotone chain. -/
theorem runGAFrom_chain (cfg : GAConfig) (window : Nat) (shouldCancel : Nat → Bool)
    (fitness : Genome → ℚ) (o : GAOracle) :
    ∀ (fuel gen : Nat) (pop : List Genome) (bestG : Genome) (bestF : ℚ)
      (e : GARunProgress), e.bestFitness = bestF →
      List.Chain' (fun a b : GARunProgress => a.bestFitness ≤ b.bestFitness)
        (e :: (runGAFrom cfg window shouldCancel fitness o fuel gen pop bestG bestF).1) := by
  intro fuel
  induction fuel with
  | zero => intro gen pop bestG bestF e _; simp [runGAFrom]
  | succ n ih =>
    intro gen pop bestG bestF e he
    simp only [runGAFrom]
    split
    case isTrue => simp
    case isFalse =>
      rw [List.chain'_cons]
      have hb := gaStep_best cfg window fitness o gen pop bestG bestF
      constructor
      · rw [he, hb.1]
        exact hb.2
      · exact ih (gen + 1) _ _ _ _ hb.1

/-- C9: within a single run, the `bestFitness` values of successive progress
events are monotone non-decreasing; and one generation updates the
best-ever value exactly when the generation's top (sorted-first) score
strictly exceeds it, in which case the emitted value is that top score. -/
theorem C9_theorem :
    (∀ (cfg : GAConfig) (iterations window : Nat) (shouldCancel : Nat → Bool)
        (fitness : Genome → ℚ) (o : GAOracle),
      List.Chain' (fun a b : GARunProgress => a.bestFitness ≤ b.bestFitness)
        (runGeneticSearch cfg iterations window shouldCancel fitness o).1) ∧
    (∀ (cfg : GAConfig) (window : Nat) (fitness : Genome → ℚ) (o : GAOracle)
        (gen : Nat) (pop : List Genome) (bestG : Genome) (bestF : ℚ),
      ((gaStep cfg window fitness o gen pop bestG bestF).1.bestFitness = bestF ∧
          ¬ genTopScore fitness pop > bestF) ∨
        ((gaStep cfg window fitness o gen pop bestG bestF).1.bestFitness =
            genTopScore fitness pop ∧ genTopScore fitness pop > bestF)) := by
  constructor
  · intro cfg iterations window shouldCancel fitness o
    have h := runGAFrom_chain cfg window shouldCancel fitness o iterations 0 o.initPop
      (o.initPop.headD { cells := [] }) 0
      { generation := 0, bestFitness := 0, population := 0, bestGenome := { cells := [] } }
      rfl
    exact h.tail
  · intro cfg window fitness o gen pop bestG bestF
    simp only [gaStep, genTopScore]
    split
    case isTrue h => exact Or.inr ⟨rfl, h⟩
    case isFalse h => exact Or.inl ⟨rfl, h⟩

end TomMonster
